import Mathlib

/-!
Verification development for the repository inspection and diff engine
(`src-tauri/src/git.rs`).  The Rust functions are shallowly embedded as Lean
functions over an explicit model of the version-control backend: trees are
flat path-to-entry association lists, blobs are byte lists, and backend
facilities that the engine merely orchestrates (status enumeration, patch
construction, line statistics) appear as fields of the `Repo` model.
Strings stored in git objects are modelled as their UTF-8 byte lists
(`List Nat`), so that `std::str::from_utf8` (fallible) and
`String::from_utf8_lossy` (total) can be modelled faithfully.
-/

namespace Recap

/-! ## UTF-8 byte-level model

`from_utf8` in Rust validates a byte slice and returns the same bytes viewed
as text; `from_utf8_lossy` replaces each maximal invalid subpart with the
replacement character (bytes `EF BF BD`).  We model text as the underlying
byte list. -/

/-- Is `b` a UTF-8 continuation byte (`0x80`–`0xBF`)? -/
def isCont (b : Nat) : Bool := 0x80 ≤ b && b ≤ 0xBF

/-- UTF-8 validity of a byte list, following the standard table used by
`std::str::from_utf8` (no overlongs, no surrogates, max U+10FFFF). -/
def utf8Valid : List Nat → Bool
  | [] => true
  | b :: bs =>
    if b ≤ 0x7F then utf8Valid bs
    else if 0xC2 ≤ b && b ≤ 0xDF then
      match bs with
      | c :: bs2 => isCont c && utf8Valid bs2
      | [] => false
    else if b = 0xE0 then
      match bs with
      | c1 :: c2 :: bs2 => (0xA0 ≤ c1 && c1 ≤ 0xBF) && isCont c2 && utf8Valid bs2
      | _ => false
    else if (0xE1 ≤ b && b ≤ 0xEC) || b = 0xEE || b = 0xEF then
      match bs with
      | c1 :: c2 :: bs2 => isCont c1 && isCont c2 && utf8Valid bs2
      | _ => false
    else if b = 0xED then
      match bs with
      | c1 :: c2 :: bs2 => (0x80 ≤ c1 && c1 ≤ 0x9F) && isCont c2 && utf8Valid bs2
      | _ => false
    else if b = 0xF0 then
      match bs with
      | c1 :: c2 :: c3 :: bs2 => (0x90 ≤ c1 && c1 ≤ 0xBF) && isCont c2 && isCont c3 && utf8Valid bs2
      | _ => false
    else if 0xF1 ≤ b && b ≤ 0xF3 then
      match bs with
      | c1 :: c2 :: c3 :: bs2 => isCont c1 && isCont c2 && isCont c3 && utf8Valid bs2
      | _ => false
    else if b = 0xF4 then
      match bs with
      | c1 :: c2 :: c3 :: bs2 => (0x80 ≤ c1 && c1 ≤ 0x8F) && isCont c2 && isCont c3 && utf8Valid bs2
      | _ => false
    else false

/-- Model of `std::str::from_utf8`: returns the bytes unchanged when they are
valid UTF-8 (Rust returns a `&str` view of the same bytes), `none` otherwise. -/
def fromUtf8 (bs : List Nat) : Option (List Nat) :=
  if utf8Valid bs then some bs else none

/-- The UTF-8 encoding of U+FFFD, substituted for invalid subparts. -/
def utf8Repl : List Nat := [0xEF, 0xBF, 0xBD]

/-- One step of lossy decoding: emit the bytes of one decoded unit (a valid
sequence, or U+FFFD for a maximal invalid subpart) and return the unconsumed
remainder.  On nonempty input at least the leading byte is consumed. -/
def lossyStep : List Nat → List Nat × List Nat
  | [] => ([], [])
  | b :: bs =>
    if b ≤ 0x7F then ([b], bs)
    else if 0xC2 ≤ b && b ≤ 0xDF then
      match bs with
      | c :: bs2 => if isCont c then ([b, c], bs2) else (utf8Repl, bs)
      | [] => (utf8Repl, [])
    else if b = 0xE0 then
      match bs with
      | c1 :: rest =>
        if 0xA0 ≤ c1 && c1 ≤ 0xBF then
          match rest with
          | c2 :: bs2 => if isCont c2 then ([b, c1, c2], bs2) else (utf8Repl, rest)
          | [] => (utf8Repl, [])
        else (utf8Repl, bs)
      | [] => (utf8Repl, [])
    else if (0xE1 ≤ b && b ≤ 0xEC) || b = 0xEE || b = 0xEF then
      match bs with
      | c1 :: rest =>
        if isCont c1 then
          match rest with
          | c2 :: bs2 => if isCont c2 then ([b, c1, c2], bs2) else (utf8Repl, rest)
          | [] => (utf8Repl, [])
        else (utf8Repl, bs)
      | [] => (utf8Repl, [])
    else if b = 0xED then
      match bs with
      | c1 :: rest =>
        if 0x80 ≤ c1 && c1 ≤ 0x9F then
          match rest with
          | c2 :: bs2 => if isCont c2 then ([b, c1, c2], bs2) else (utf8Repl, rest)
          | [] => (utf8Repl, [])
        else (utf8Repl, bs)
      | [] => (utf8Repl, [])
    else if 0xF0 ≤ b && b ≤ 0xF4 then
      match bs with
      | c1 :: rest =>
        if (if b = 0xF0 then 0x90 ≤ c1 && c1 ≤ 0xBF
            else if b = 0xF4 then 0x80 ≤ c1 && c1 ≤ 0x8F
            else isCont c1) then
          match rest with
          | c2 :: rest2 =>
            if isCont c2 then
              match rest2 with
              | c3 :: bs2 => if isCont c3 then ([b, c1, c2, c3], bs2) else (utf8Repl, rest2)
              | [] => (utf8Repl, [])
            else (utf8Repl, rest)
          | [] => (utf8Repl, [])
        else (utf8Repl, bs)
      | [] => (utf8Repl, [])
    else (utf8Repl, bs)

/-- Fuelled driver for lossy decoding; `fuel` bounds the number of decoded
units, and one unit consumes at least one byte. -/
def fromUtf8LossyAux : Nat → List Nat → List Nat
  | 0, _ => []
  | _, [] => []
  | fuel + 1, b :: bs =>
    ((lossyStep (b :: bs)).1) ++ fromUtf8LossyAux fuel (lossyStep (b :: bs)).2

/-- Model of `String::from_utf8_lossy`: total; each maximal invalid subpart is
replaced by U+FFFD. -/
def fromUtf8Lossy (bs : List Nat) : List Nat := fromUtf8LossyAux bs.length bs

instance exceptDecEq {ε α : Type} [DecidableEq ε] [DecidableEq α] :
    DecidableEq (Except ε α)
  | .ok a, .ok b =>
    if h : a = b then .isTrue (by rw [h]) else .isFalse (fun hh => h (Except.ok.inj hh))
  | .error a, .error b =>
    if h : a = b then .isTrue (by rw [h]) else .isFalse (fun hh => h (Except.error.inj hh))
  | .ok _, .error _ => .isFalse (fun hh => Except.noConfusion hh)
  | .error _, .ok _ => .isFalse (fun hh => Except.noConfusion hh)

/-! ## Data model (`git.rs` value types) -/

/-- Status of a file in a commit or working directory (`enum FileStatus`). -/
inductive FileStatus where
  | Added
  | Modified
  | Deleted
  | Renamed
  | Copied
  | Unmodified
  | Untracked
deriving DecidableEq, Repr

/-- The backend change kind for one delta (`git2::Delta`). -/
inductive DeltaKind where
  | Added
  | Deleted
  | Modified
  | Renamed
  | Copied
  | Unmodified
  | Ignored
  | Untracked
  | Typechange
  | Unreadable
  | Conflicted
deriving DecidableEq, Repr

/-- The `impl From<Delta> for FileStatus` conversion: any kind not explicitly
Added/Deleted/Modified/Renamed/Copied collapses to `Unmodified`. -/
def fileStatusOfDelta : DeltaKind → FileStatus
  | .Added => .Added
  | .Deleted => .Deleted
  | .Modified => .Modified
  | .Renamed => .Renamed
  | .Copied => .Copied
  | _ => .Unmodified

/-- Represents a changed file in a commit (`struct ChangedFile`). -/
structure ChangedFile where
  path : String
  status : FileStatus
  additions : Nat
  deletions : Nat
  old_path : Option String
deriving DecidableEq, Repr

/-- Type of diff line (`enum LineType`). -/
inductive LineType where
  | Context
  | Addition
  | Deletion
deriving DecidableEq, Repr

/-- A single line in a diff (`struct DiffLine`); `content` is the line text as
UTF-8 bytes after lossy decoding. -/
structure DiffLine where
  content : List Nat
  line_type : LineType
  old_line_no : Option Nat
  new_line_no : Option Nat
deriving DecidableEq, Repr

/-- A hunk in a diff (`struct DiffHunk`). -/
structure DiffHunk where
  old_start : Nat
  old_lines : Nat
  new_start : Nat
  new_lines : Nat
  lines : List DiffLine
deriving DecidableEq, Repr

/-- The complete diff for a file (`struct FileDiff`). -/
structure FileDiff where
  old_path : Option String
  new_path : String
  hunks : List DiffHunk
  is_binary : Bool
deriving DecidableEq, Repr

/-- File contents before and after a comparison (`struct FileContents`);
contents are UTF-8 byte lists. -/
structure FileContents where
  old_content : Option (List Nat)
  new_content : Option (List Nat)
  is_binary : Bool
deriving DecidableEq, Repr

/-- Represents a git branch (`struct Branch`). -/
structure Branch where
  name : String
  is_current : Bool
  is_remote : Bool
  commit_id : String
deriving DecidableEq, Repr

/-- Information about a repository (`struct RepoInfo`). -/
structure RepoInfo where
  path : String
  name : String
  branch : String
deriving DecidableEq, Repr

/-! ## Backend model

The engine treats libgit2 as a collaborator.  We model the pieces it uses:
trees, blobs, status flags, branch references, HEAD, and the patch data the
backend produces for a delta. -/

/-- A tree entry: a blob (bytes plus the backend's binary verdict from
`Blob::is_binary`) or a non-blob entry (sub-tree, submodule, ...). -/
inductive TreeEntry where
  | blob (bytes : List Nat) (isBin : Bool)
  | sub
deriving DecidableEq, Repr

/-- A tree, flattened: full path to entry. -/
abbrev Tree := List (String × TreeEntry)

/-- Association-list lookup by path. -/
def lookupAssoc {α : Type} (l : List (String × α)) (p : String) : Option α :=
  (l.find? (fun e => e.1 == p)).map (·.2)

/-- The blob entries of a tree: path, bytes, binary flag. -/
def treeBlobs (t : Tree) : List (String × List Nat × Bool) :=
  t.filterMap fun e =>
    match e.2 with
    | .blob bs bin => some (e.1, bs, bin)
    | .sub => none

/-- Look up the blob stored at `p` in `t`, if any. -/
def lookupBlob (t : Tree) (p : String) : Option (List Nat × Bool) :=
  ((treeBlobs t).find? (fun e => e.1 == p)).map (·.2)

/-- One delta of a tree-to-tree diff (`git2::DiffDelta`): change kind, the two
sides' paths and the backend's per-side binary flags. -/
structure Delta where
  status : DeltaKind
  oldPath : Option String
  newPath : Option String
  oldIsBin : Bool
  newIsBin : Bool
deriving DecidableEq, Repr

/-- Model of the backend primitive `diff_tree_to_tree` (no rename detection is
requested by the engine, matching `DiffOptions::new()`): blobs only in the new
tree are Added, blobs only in the old tree are Deleted, blobs present in both
with different content or binary verdict are Modified.  `none` as the old tree
is the empty tree. -/
def diffTreeToTree (old? : Option Tree) (new : Tree) : List Delta :=
  let oldT := old?.getD []
  let changedNew := (treeBlobs new).filterMap fun e =>
    match lookupBlob oldT e.1 with
    | none =>
        some { status := .Added, oldPath := none, newPath := some e.1,
               oldIsBin := false, newIsBin := e.2.2 }
    | some ob =>
        if ob = e.2 then none
        else some { status := .Modified, oldPath := some e.1, newPath := some e.1,
                    oldIsBin := ob.2, newIsBin := e.2.2 }
  let deletedOld := (treeBlobs oldT).filterMap fun e =>
    match lookupBlob new e.1 with
    | some _ => none
    | none =>
        some { status := .Deleted, oldPath := some e.1, newPath := none,
               oldIsBin := e.2.2, newIsBin := false }
  changedNew ++ deletedOld

/-- A commit object: its tree and its parents' trees (in parent order). -/
structure CommitObj where
  tree : Tree
  parentTrees : List Tree
deriving DecidableEq, Repr

/-- Combined index/worktree status flags for one path (`git2::Status`). -/
structure Status where
  index_new : Bool := false
  index_modified : Bool := false
  index_deleted : Bool := false
  index_renamed : Bool := false
  index_typechange : Bool := false
  wt_new : Bool := false
  wt_modified : Bool := false
  wt_deleted : Bool := false
  wt_renamed : Bool := false
  wt_typechange : Bool := false
  ignored : Bool := false
  conflicted : Bool := false
deriving DecidableEq, Repr

/-- Model of `Status::is_empty`: no flag set. -/
def Status.isEmpty (s : Status) : Bool :=
  !(s.index_new || s.index_modified || s.index_deleted || s.index_renamed ||
    s.index_typechange || s.wt_new || s.wt_modified || s.wt_deleted ||
    s.wt_renamed || s.wt_typechange || s.ignored || s.conflicted)

/-- One entry of the backend's status list (`git2::StatusEntry`). -/
structure StatusEntry where
  path : String
  flags : Status
deriving DecidableEq, Repr

/-- A branch as enumerated by the backend: `Branch::name` (none models
non-UTF-8), the underlying reference name, and the tip commit id as resolved
by `peel_to_commit` (none models a failed resolution). -/
structure BranchInfo where
  name : Option String
  refname : Option String
  commitId : Option String
deriving DecidableEq, Repr

/-- The resolved HEAD reference (`Repository::head` success value). -/
structure HeadRef where
  isBranch : Bool
  shorthand : Option String
  target : Option String
deriving DecidableEq, Repr

/-- One raw diff line as emitted by the backend (`git2::DiffLine`): the origin
marker character, content bytes and the two line numbers. -/
structure RawLine where
  origin : Char
  content : List Nat
  old_lineno : Option Nat
  new_lineno : Option Nat
deriving DecidableEq, Repr

/-- One raw hunk as emitted by the backend (`git2::DiffHunk` plus its lines). -/
structure RawHunk where
  old_start : Nat
  old_lines : Nat
  new_start : Nat
  new_lines : Nat
  lines : List RawLine
deriving DecidableEq, Repr

/-- The repository model: everything the embedded operations read from the
backend.  Function-valued fields are backend oracles: per-delta patch line
statistics (`Patch::line_stats`, `none` models patch-construction failure,
which the engine degrades to 0/0), per-file patch hunks
(`Patch::from_diff` + hunk iteration, `none` models failure), and the
opportunistic working-tree diff statistics. -/
structure Repo where
  commits : List (String × CommitObj)
  statuses : List StatusEntry
  localBranches : List BranchInfo
  remoteBranches : List BranchInfo
  head : Except String HeadRef
  workdir : Option String
  headTree : Option Tree
  workdirFiles : List (String × List Nat)
  patchStats : String → Nat → Option (Nat × Nat)
  rangePatchStats : List String → Nat → Option (Nat × Nat)
  patchHunks : String → String → Option (List RawHunk)
  workdirStats : String → Nat × Nat

/-- Model of `find_commit`. -/
def Repo.findCommit (repo : Repo) (commitId : String) : Option CommitObj :=
  lookupAssoc repo.commits commitId

/-! ## Embedded operations

Backend I/O failure paths that the model does not represent (repository open,
`statuses`, `set_head`, `checkout_tree`) are taken as successful; every branch
of the Rust control flow that inspects data the model does carry is embedded
verbatim. -/

/-- The `get_content` closure inside `get_file_contents`: resolve `path` in
`tree`; absent path is `none` (not an error); binary blobs, undecodable blobs
and non-blob entries produce the source's sentinel error strings. -/
def getContent (tree : Tree) (path : String) : Option (Except String (List Nat)) :=
  match lookupAssoc tree path with
  | none => none
  | some .sub => some (.error "Not a blob")
  | some (.blob bs bin) =>
    if bin then some (.error "Binary file")
    else
      match fromUtf8 bs with
      | some s => some (.ok s)
      | none => some (.error "File is not valid UTF-8")

/-- The per-side content match at the end of `get_file_contents`:
`Some(Ok(c)) => Some(c)`, `Some(Err(e)) if e != "Binary file" => return Err(e)`,
otherwise `None`. -/
def extractContent : Option (Except String (List Nat)) → Except String (Option (List Nat))
  | some (.ok c) => .ok (some c)
  | some (.error e) => if e ≠ "Binary file" then .error e else .ok none
  | none => .ok none

/-- Body of `get_file_contents` after the commit and parent trees are
resolved (`git.rs:456-519`). -/
def fileContentsCore (tree : Tree) (parentTree : Option Tree) (path : String) :
    Except String FileContents :=
  let newResult := getContent tree path
  let oldResult := parentTree.bind fun pt => getContent pt path
  let isBin :=
    (match newResult with | some (.error e) => e = "Binary file" | _ => false) ||
    (match oldResult with | some (.error e) => e = "Binary file" | _ => false)
  if isBin then .ok { old_content := none, new_content := none, is_binary := true }
  else if newResult.isNone && oldResult.isNone then
    .error ("File not found in commit: " ++ path)
  else
    match extractContent oldResult with
    | .error e => .error e
    | .ok oc =>
      match extractContent newResult with
      | .error e => .error e
      | .ok nc => .ok { old_content := oc, new_content := nc, is_binary := false }

/-- Embeds `get_file_contents` (`git.rs:425-520`): parent tree is the first parent's
tree, or absent for a root commit. -/
def get_file_contents (repo : Repo) (commitId path : String) : Except String FileContents :=
  match repo.findCommit commitId with
  | none => .error "Failed to find commit"
  | some c => fileContentsCore c.tree c.parentTrees.head? path

/-- Build one `ChangedFile` from a delta and the backend's per-file patch line
statistics; a failed patch (`none`) degrades the counts to 0 (`git.rs:260-279`). -/
def changedFileOfDelta (stats : Option (Nat × Nat)) (d : Delta) : ChangedFile :=
  { path := ((d.newPath).orElse fun _ => d.oldPath).getD "",
    status := fileStatusOfDelta d.status,
    additions := (stats.getD (0, 0)).1,
    deletions := (stats.getD (0, 0)).2,
    old_path := if d.status = .Renamed then d.oldPath else none }

/-- The indexed delta loop of `get_commit_files` (`for delta_idx in 0..len`). -/
def withStats (stats : Nat → Option (Nat × Nat)) : Nat → List Delta → List ChangedFile
  | _, [] => []
  | i, d :: ds => changedFileOfDelta (stats i) d :: withStats stats (i + 1) ds

/-- Embeds `get_commit_files` (`git.rs:201-283`): diff the first parent's tree (empty
tree for a root commit) against the commit's tree. -/
def get_commit_files (repo : Repo) (commitId : String) : Except String (List ChangedFile) :=
  match repo.findCommit commitId with
  | none => .error "Failed to find commit"
  | some c =>
    .ok (withStats (repo.patchStats commitId) 0 (diffTreeToTree c.parentTrees.head? c.tree))

/-- Classify one raw backend line (`git.rs:383-397`): origin marker decides the
`LineType`, the content is decoded lossily, the line numbers are copied. -/
def mkDiffLine (r : RawLine) : DiffLine :=
  { content := fromUtf8Lossy r.content,
    line_type := if r.origin = '+' then .Addition
                 else if r.origin = '-' then .Deletion
                 else .Context,
    old_line_no := r.old_lineno,
    new_line_no := r.new_lineno }

/-- Convert one raw hunk (`git.rs:371-406`). -/
def mkHunk (h : RawHunk) : DiffHunk :=
  { old_start := h.old_start, old_lines := h.old_lines,
    new_start := h.new_start, new_lines := h.new_lines,
    lines := h.lines.map mkDiffLine }

/-- Does a delta concern `path`?  Models the pathspec restriction. -/
def deltaMatches (path : String) (d : Delta) : Bool :=
  d.newPath == some path || d.oldPath == some path

/-- Embeds `get_file_diff` (`git.rs:294-414`): pathspec-restricted tree diff, first
delta; binary on either side short-circuits to an empty-hunk binary result;
otherwise the backend patch is converted hunk by hunk. -/
def get_file_diff (repo : Repo) (commitId path : String) : Except String FileDiff :=
  match repo.findCommit commitId with
  | none => .error "Failed to find commit"
  | some c =>
    match ((diffTreeToTree c.parentTrees.head? c.tree).filter (deltaMatches path)).head? with
    | none => .error ("File not found in commit: " ++ path)
    | some d =>
      let new_path := ((d.newPath).orElse fun _ => d.oldPath).getD ""
      let old_path := if d.status = .Renamed || d.status = .Copied then d.oldPath else none
      if d.newIsBin || d.oldIsBin then
        .ok { old_path := old_path, new_path := new_path, hunks := [], is_binary := true }
      else
        match repo.patchHunks commitId path with
        | none => .error "Failed to create patch for file"
        | some rhs =>
          .ok { old_path := old_path, new_path := new_path,
                hunks := rhs.map mkHunk, is_binary := false }

/-- Embeds `get_current_branch` (`git.rs:529-547`): branch HEAD yields the shorthand
name, detached HEAD yields the target id. -/
def get_current_branch (repo : Repo) : Except String String :=
  match repo.head with
  | .error e => .error ("Failed to get HEAD: " ++ e)
  | .ok h =>
    if h.isBranch then
      match h.shorthand with
      | some s => .ok s
      | none => .error "Branch name is not valid UTF-8"
    else
      match h.target with
      | some oid => .ok oid
      | none => .error "HEAD has no target"

/-- Model of `Path::file_name` of the working directory, defaulting to "unknown". -/
def dirName (p : String) : String :=
  match ((p.splitOn "/").filter (fun s => s ≠ "")).getLast? with
  | some n => n
  | none => "unknown"

/-- Embeds `validate_repo` (`git.rs:710-735`): requires a working directory, then the
current branch resolution. -/
def validate_repo (repo : Repo) : Except String RepoInfo :=
  match repo.workdir with
  | none => .error "Repository has no working directory (bare repo)"
  | some wd =>
    match get_current_branch repo with
    | .error e => .error e
    | .ok branch => .ok { path := wd, name := dirName wd, branch := branch }

/-- The branch sort comparator (`git.rs:628-636`): current first, local before
remote, then by name. -/
def branchCmp (a b : Branch) : Ordering :=
  if a.is_current ≠ b.is_current then compare b.is_current a.is_current
  else if a.is_remote ≠ b.is_remote then compare a.is_remote b.is_remote
  else compare a.name b.name

/-- Sort predicate corresponding to `sort_by branchCmp` (stable merge sort). -/
def branchLE (a b : Branch) : Bool := branchCmp a b ≠ Ordering.gt

/-- Build the `Branch` records for one enumeration of backend branches; a
missing (non-UTF-8) name aborts the listing, a failed tip resolution degrades
`commit_id` to the empty string. -/
def mkBranches (current : Option String) (remote : Bool) :
    List BranchInfo → Except String (List Branch)
  | [] => .ok []
  | bi :: rest =>
    match bi.name with
    | none => .error "Branch name is not valid UTF-8"
    | some n =>
      match mkBranches current remote rest with
      | .error e => .error e
      | .ok bs =>
        .ok ({ name := n,
               is_current := !remote && current == some n,
               is_remote := remote,
               commit_id := bi.commitId.getD "" } :: bs)

/-- Embeds `list_branches` (`git.rs:556-639`): local branches then remote branches,
stably sorted by `branchCmp`; remote branches are never current. -/
def list_branches (repo : Repo) : Except String (List Branch) :=
  let current := (get_current_branch repo).toOption
  match mkBranches current false repo.localBranches with
  | .error e => .error e
  | .ok locals =>
    match mkBranches current true repo.remoteBranches with
    | .error e => .error e
    | .ok remotes => .ok ((locals ++ remotes).mergeSort branchLE)

/-- Model of `find_branch(name, BranchType::Local)`. -/
def Repo.findLocalBranch (repo : Repo) (name : String) : Option BranchInfo :=
  repo.localBranches.find? (fun bi => bi.name == some name)

/-- The uncommitted-changes guard predicate of `checkout_branch`
(`git.rs:658-666`). -/
def blockingStatus (s : Status) : Bool :=
  s.wt_modified || s.wt_deleted || s.index_modified || s.index_deleted || s.index_new

/-- Embeds `checkout_branch` (`git.rs:649-701`): guard on uncommitted changes, then
resolve the local branch and its reference name; `set_head` and the forced
`checkout_tree` are backend mutations modelled as succeeding. -/
def checkout_branch (repo : Repo) (branchName : String) : Except String Unit :=
  if repo.statuses.any (fun e => blockingStatus e.flags) then
    .error "Cannot switch branches: you have uncommitted changes that would be overwritten"
  else
    match repo.findLocalBranch branchName with
    | none => .error ("Branch not found: " ++ branchName)
    | some br =>
      match br.refname with
      | none => .error "Branch reference name is not valid UTF-8"
      | some _ => .ok ()

/-- The status-combination chain of `get_working_changes` (`git.rs:769-783`):
first-match-wins over the combined index/worktree flags; `none` means the path
is skipped. -/
def workingStatusOf (s : Status) : Option FileStatus :=
  if s.wt_new || s.index_new then
    some (if s.wt_new && !s.index_new then .Untracked else .Added)
  else if s.wt_deleted || s.index_deleted then some .Deleted
  else if s.wt_modified || s.index_modified then some .Modified
  else if s.wt_renamed || s.index_renamed then some .Renamed
  else none

/-- Embeds `get_working_changes` (`git.rs:744-820`): enumerate status entries, skip
empty ones, classify, and attach the opportunistic line statistics; renames do
not populate `old_path`. -/
def get_working_changes (repo : Repo) : List ChangedFile :=
  repo.statuses.filterMap fun e =>
    if e.flags.isEmpty then none
    else
      (workingStatusOf e.flags).map fun st =>
        { path := e.path, status := st,
          additions := (repo.workdirStats e.path).1,
          deletions := (repo.workdirStats e.path).2,
          old_path := none }

/-- The working-directory side of `get_working_file_contents`
(`git.rs:986-1024`): read from disk, scan the first 8000 bytes for a zero byte
(binary short-circuit), decode, and fail when neither side exists. -/
def workingNewSide (repo : Repo) (path : String) (old_content : Option (List Nat)) :
    Except String FileContents :=
  match lookupAssoc repo.workdirFiles path with
  | some bytes =>
    if (bytes.take 8000).contains 0 then
      .ok { old_content := none, new_content := none, is_binary := true }
    else
      match fromUtf8 bytes with
      | some s => .ok { old_content := old_content, new_content := some s, is_binary := false }
      | none => .error "File is not valid UTF-8"
  | none =>
    match old_content with
    | none => .error ("File not found: " ++ path)
    | some oc => .ok { old_content := some oc, new_content := none, is_binary := false }

/-- Embeds `get_working_file_contents` (`git.rs:945-1025`): the HEAD side comes from
the object store (backend binary verdict, strict UTF-8), the working side from
disk; a binary verdict on either side short-circuits the whole result. -/
def get_working_file_contents (repo : Repo) (path : String) : Except String FileContents :=
  match repo.headTree with
  | some t =>
    match lookupAssoc t path with
    | some (.blob bs bin) =>
      if bin then .ok { old_content := none, new_content := none, is_binary := true }
      else
        match fromUtf8 bs with
        | some s => workingNewSide repo path (some s)
        | none => .error "File is not valid UTF-8"
    | some .sub => .error "Not a blob"
    | none => workingNewSide repo path none
  | none => workingNewSide repo path none

/-- Modelled from the spec: `get_commit_range_files` belongs to this repository
but its source is not under src/ (only the command wrapper
`commands/git.rs:19-25` is).  Per the spec (section 4.2), the commit id
sequence is ordered newest-first; the "before" side is the first-parent tree
of the oldest commit (the last id) and the "after" side is the tree of the
newest commit (the first id), giving one aggregate diff over the whole range. -/
def get_commit_range_files (repo : Repo) (commitIds : List String) :
    Except String (List ChangedFile) :=
  match commitIds.head?, commitIds.getLast? with
  | some newestId, some oldestId =>
    match repo.findCommit newestId, repo.findCommit oldestId with
    | some cn, some co =>
      .ok (withStats (repo.rangePatchStats commitIds) 0
        (diffTreeToTree co.parentTrees.head? cn.tree))
    | _, _ => .error "Failed to find commit"
  | _, _ => .error "No commits specified"

/-- Modelled from the spec: `get_commit_range_file_contents` belongs to this
repository but its source is not under src/ (only the command wrapper
`commands/git.rs:45-52` is).  Per the spec (sections 4.2 and 4.3), it resolves
contents at the same two comparison points as `get_commit_range_files`: the
first-parent tree of the oldest commit and the tree of the newest commit. -/
def get_commit_range_file_contents (repo : Repo) (commitIds : List String) (path : String) :
    Except String FileContents :=
  match commitIds.head?, commitIds.getLast? with
  | some newestId, some oldestId =>
    match repo.findCommit newestId, repo.findCommit oldestId with
    | some cn, some co => fileContentsCore cn.tree co.parentTrees.head? path
    | _, _ => .error "Failed to find commit"
  | _, _ => .error "No commits specified"

/-! ## Helper lemmas -/

/-- No blobs in the empty tree. -/
theorem treeBlobs_nil : treeBlobs [] = [] := rfl

/-- No blob lookup succeeds in the empty tree. -/
theorem lookupBlob_nil (p : String) : lookupBlob [] p = none := rfl

/-- Diffing the empty tree against `t` marks every blob of `t` as Added. -/
theorem diffTreeToTree_none (t : Tree) :
    diffTreeToTree none t = (treeBlobs t).map
      (fun e => { status := .Added, oldPath := none, newPath := some e.1,
                  oldIsBin := false, newIsBin := e.2.2 }) := by
  unfold diffTreeToTree
  simp only [Option.getD_none, lookupBlob_nil, treeBlobs_nil, List.filterMap_nil,
    List.append_nil]
  induction treeBlobs t with
  | nil => rfl
  | cons e rest ih => simp [List.filterMap_cons, ih]

/-- The path/status projection of the indexed delta loop ignores the
statistics oracle. -/
theorem withStats_map_path_status (stats : Nat → Option (Nat × Nat)) :
    ∀ (i : Nat) (l : List Delta),
      (withStats stats i l).map (fun f => (f.path, f.status)) =
        l.map (fun d => (((d.newPath).orElse fun _ => d.oldPath).getD "",
                         fileStatusOfDelta d.status))
  | _, [] => rfl
  | i, d :: ds => by
    simp only [withStats, List.map_cons, withStats_map_path_status stats (i + 1) ds]
    rfl

/-! ## Concrete fixtures for witnesses and counterexamples -/

/-- A repository model with nothing in it; fixtures below override fields. -/
def baseRepo : Repo :=
  { commits := [], statuses := [], localBranches := [], remoteBranches := [],
    head := .error "reference not found", workdir := none, headTree := none,
    workdirFiles := [],
    patchStats := fun _ _ => none, rangePatchStats := fun _ _ => none,
    patchHunks := fun _ _ => none, workdirStats := fun _ => (0, 0) }

/-- A local branch named `feature`. -/
def featureBranch : BranchInfo :=
  { name := some "feature", refname := some "refs/heads/feature", commitId := some "bb22" }

/-- Repository whose only change is a staged addition of a new file. -/
def stagedAddRepo : Repo :=
  { baseRepo with
    statuses := [{ path := "staged.txt", flags := { index_new := true } }],
    localBranches := [featureBranch] }

/-- Repository whose only change is an untracked new file. -/
def untrackedOnlyRepo : Repo :=
  { baseRepo with
    statuses := [{ path := "untracked.txt", flags := { wt_new := true } }],
    localBranches := [featureBranch] }

/-! ## C1 -/

/-- C1 counterexample: the claim says `checkoutBranch` to a valid local branch
succeeds when the only changes are staged additions of new files, but the
guard (`git.rs:665`) also blocks on `is_index_new`: on a repository whose only
status entry is a staged new file, checkout of the valid branch `feature`
fails with the uncommitted-changes error. -/
theorem checkoutBranch_staged_addition_blocks :
    checkout_branch stagedAddRepo "feature" =
      .error "Cannot switch branches: you have uncommitted changes that would be overwritten" := by
  rfl

/-- C1 (amended): `checkout_branch` to a valid local branch fails with the
uncommitted-changes error exactly when some path is modified or deleted in the
index or the worktree, or is a staged addition of a new file (new in the
index); it succeeds when no path has any of those flags — in particular when
the only changes are untracked new files. -/
theorem checkoutBranch_guard_characterization (repo : Repo) (name : String)
    (br : BranchInfo) (rn : String)
    (hb : repo.findLocalBranch name = some br) (hr : br.refname = some rn) :
    (checkout_branch repo name =
        .error "Cannot switch branches: you have uncommitted changes that would be overwritten"
      ↔ ∃ e ∈ repo.statuses,
          e.flags.wt_modified = true ∨ e.flags.wt_deleted = true ∨
          e.flags.index_modified = true ∨ e.flags.index_deleted = true ∨
          e.flags.index_new = true) ∧
    ((∀ e ∈ repo.statuses,
        e.flags.wt_modified = false ∧ e.flags.wt_deleted = false ∧
        e.flags.index_modified = false ∧ e.flags.index_deleted = false ∧
        e.flags.index_new = false) →
      checkout_branch repo name = .ok ()) := by
  have hany : (repo.statuses.any fun e => blockingStatus e.flags) = true ↔
      ∃ e ∈ repo.statuses,
        e.flags.wt_modified = true ∨ e.flags.wt_deleted = true ∨
        e.flags.index_modified = true ∨ e.flags.index_deleted = true ∨
        e.flags.index_new = true := by
    simp only [List.any_eq_true, blockingStatus, Bool.or_eq_true]
    constructor
    · rintro ⟨e, he, h⟩
      exact ⟨e, he, by tauto⟩
    · rintro ⟨e, he, h⟩
      exact ⟨e, he, by tauto⟩
  constructor
  · by_cases h : (repo.statuses.any fun e => blockingStatus e.flags) = true
    · rw [← hany]
      simp [checkout_branch, h]
    · rw [← hany]
      simp only [checkout_branch, Bool.not_eq_true] at h ⊢
      rw [h]
      simp [hb, hr, h]
  · intro hall
    have h : (repo.statuses.any fun e => blockingStatus e.flags) = false := by
      rw [← Bool.not_eq_true, hany]
      push_neg
      intro e he
      have := hall e he
      simp [this.1, this.2.1, this.2.2.1, this.2.2.2.1, this.2.2.2.2]
    simp [checkout_branch, h, hb, hr]

/-- C1 witness: on the untracked-only repository the amended characterization
applies and checkout of `feature` succeeds. -/
theorem checkoutBranch_guard_characterization_witness :
    (untrackedOnlyRepo.findLocalBranch "feature" = some featureBranch ∧
     featureBranch.refname = some "refs/heads/feature") ∧
    checkout_branch untrackedOnlyRepo "feature" = .ok () :=
  ⟨⟨by decide, by decide⟩,
   (checkoutBranch_guard_characterization untrackedOnlyRepo "feature" featureBranch
      "refs/heads/feature" (by decide) (by decide)).2 (by decide)⟩

/-! ## C2 -/

/-- C2: for a non-empty newest-first sequence of commit ids, the aggregate
range diff compares the first-parent tree of the oldest commit (the "before"
side) against the tree of the newest commit (the "after" side) — one diff over
the whole range, not a per-commit union — and the range contents call resolves
contents at the same two comparison points. -/
theorem commitRange_uses_endpoint_trees (repo : Repo) (ids : List String) (path : String)
    (newestId oldestId : String) (cn co : CommitObj)
    (hn : ids.head? = some newestId) (ho : ids.getLast? = some oldestId)
    (hcn : repo.findCommit newestId = some cn) (hco : repo.findCommit oldestId = some co) :
    get_commit_range_files repo ids =
      .ok (withStats (repo.rangePatchStats ids) 0
        (diffTreeToTree co.parentTrees.head? cn.tree)) ∧
    get_commit_range_file_contents repo ids path =
      fileContentsCore cn.tree co.parentTrees.head? path := by
  constructor
  · simp [get_commit_range_files, hn, ho, hcn, hco]
  · simp [get_commit_range_file_contents, hn, ho, hcn, hco]

/-- Tree containing one text file, used by range and root-commit fixtures. -/
def readmeTree : Tree := [("README.md", .blob [35, 32, 84, 101, 115, 116] false)]

/-- Tree of the newest commit of the range fixture. -/
def rangeNewTree : Tree :=
  [("README.md", .blob [35, 32, 84, 101, 115, 116] false),
   ("file.txt", .blob [99, 111, 110, 116, 101, 110, 116] false)]

/-- Two-commit repository: root commit `aa` (tree `readmeTree`), child `bb`. -/
def rangeRepo : Repo :=
  { baseRepo with
    commits := [("bb", ⟨rangeNewTree, [readmeTree]⟩), ("aa", ⟨readmeTree, []⟩)] }

/-- C2 witness: the range `[bb, aa]` (newest first) diffs the empty tree (root
commit `aa` has no parent) against the tree of `bb`. -/
theorem commitRange_uses_endpoint_trees_witness :
    ((["bb", "aa"] : List String).head? = some "bb" ∧
     (["bb", "aa"] : List String).getLast? = some "aa" ∧
     rangeRepo.findCommit "bb" = some ⟨rangeNewTree, [readmeTree]⟩ ∧
     rangeRepo.findCommit "aa" = some ⟨readmeTree, []⟩) ∧
    (get_commit_range_files rangeRepo ["bb", "aa"] =
      .ok (withStats (rangeRepo.rangePatchStats ["bb", "aa"]) 0
        (diffTreeToTree (none : Option Tree) rangeNewTree)) ∧
     get_commit_range_file_contents rangeRepo ["bb", "aa"] "file.txt" =
      fileContentsCore rangeNewTree (none : Option Tree) "file.txt") :=
  ⟨⟨rfl, rfl, by decide, by decide⟩,
   commitRange_uses_endpoint_trees rangeRepo ["bb", "aa"] "file.txt" "bb" "aa"
     ⟨rangeNewTree, [readmeTree]⟩ ⟨readmeTree, []⟩ rfl rfl (by decide) (by decide)⟩

/-! ## C7 -/

/-- C7: for a root commit (no parents), `get_commit_files` compares against
the empty tree, so it reports exactly the files present in the commit's tree,
each with status Added. -/
theorem getCommitFiles_root_all_added (repo : Repo) (cid : String) (c : CommitObj)
    (hc : repo.findCommit cid = some c) (hroot : c.parentTrees = []) :
    ∃ files, get_commit_files repo cid = .ok files ∧
      files.map (fun f => (f.path, f.status)) =
        (treeBlobs c.tree).map (fun e => (e.1, FileStatus.Added)) := by
  have hd : c.parentTrees.head? = none := by rw [hroot]; rfl
  refine ⟨withStats (repo.patchStats cid) 0 (diffTreeToTree none c.tree), ?_, ?_⟩
  · simp [get_commit_files, hc, hd]
  · rw [diffTreeToTree_none, withStats_map_path_status, List.map_map]
    simp [fileStatusOfDelta]

/-- Repository with a single root commit `aa11` whose tree is `readmeTree`. -/
def rootRepo : Repo := { baseRepo with commits := [("aa11", ⟨readmeTree, []⟩)] }

/-- C7 witness: the root commit of `rootRepo` reports `README.md` as Added. -/
theorem getCommitFiles_root_all_added_witness :
    (rootRepo.findCommit "aa11" = some ⟨readmeTree, []⟩ ∧
     (⟨readmeTree, []⟩ : CommitObj).parentTrees = []) ∧
    (∃ files, get_commit_files rootRepo "aa11" = .ok files ∧
      files.map (fun f => (f.path, f.status)) =
        (treeBlobs readmeTree).map (fun e => (e.1, FileStatus.Added))) :=
  ⟨⟨by decide, rfl⟩,
   getCommitFiles_root_all_added rootRepo "aa11" ⟨readmeTree, []⟩ (by decide) rfl⟩

/-! ## C9 -/

/-- C9: on a repository whose HEAD cannot be resolved (unborn HEAD in a valid,
non-bare repository), `get_current_branch` fails with a HEAD-resolution error,
and `validate_repo` therefore fails with the same error even though the path
opened as a repository. -/
theorem unbornHead_fails_currentBranch_and_validate (repo : Repo) (e wd : String)
    (hh : repo.head = .error e) (hw : repo.workdir = some wd) :
    get_current_branch repo = .error ("Failed to get HEAD: " ++ e) ∧
    validate_repo repo = .error ("Failed to get HEAD: " ++ e) := by
  constructor
  · simp [get_current_branch, hh]
  · simp [validate_repo, hw, get_current_branch, hh]

/-- Repository that opens (has a working directory) but whose HEAD is unborn. -/
def unbornRepo : Repo :=
  { baseRepo with head := .error "reference not found", workdir := some "/r/repo" }

/-- C9 witness: on `unbornRepo` both calls fail with the HEAD error. -/
theorem unbornHead_fails_currentBranch_and_validate_witness :
    (unbornRepo.head = .error "reference not found" ∧
     unbornRepo.workdir = some "/r/repo") ∧
    (get_current_branch unbornRepo = .error ("Failed to get HEAD: " ++ "reference not found") ∧
     validate_repo unbornRepo = .error ("Failed to get HEAD: " ++ "reference not found")) :=
  ⟨⟨rfl, rfl⟩,
   unbornHead_fails_currentBranch_and_validate unbornRepo "reference not found" "/r/repo" rfl rfl⟩

/-! ## C3 -/

/-- Modelled from the spec (section 4.4): the claimed first-match-wins
precedence over the combined flags, to be compared with the code's
`workingStatusOf`. -/
def specWorkingStatus (s : Status) : Option FileStatus :=
  if s.wt_new && !s.index_new then some .Untracked
  else if s.index_new || s.wt_new then some .Added
  else if s.wt_deleted || s.index_deleted then some .Deleted
  else if s.wt_modified || s.index_modified then some .Modified
  else if s.wt_renamed || s.index_renamed then some .Renamed
  else none

/-- The code's status combination agrees with the claimed precedence on every
flag combination. -/
theorem workingStatusOf_eq_spec (s : Status) : workingStatusOf s = specWorkingStatus s := by
  obtain ⟨i1, i2, i3, i4, i5, w1, w2, w3, w4, w5, g, cf⟩ := s
  cases i1 <;> cases i2 <;> cases i3 <;> cases i4 <;>
    cases w1 <;> cases w2 <;> cases w3 <;> cases w4 <;> rfl

/-- An empty flag set classifies to nothing. -/
theorem workingStatusOf_of_isEmpty (s : Status) (h : s.isEmpty = true) :
    workingStatusOf s = none := by
  obtain ⟨i1, i2, i3, i4, i5, w1, w2, w3, w4, w5, g, cf⟩ := s
  simp [Status.isEmpty] at h
  simp [workingStatusOf, h]

/-- C3: every file reported by `get_working_changes` carries the status given
by the claimed first-match-wins precedence (`specWorkingStatus`) applied to
its entry's combined index/worktree flags, and a path whose flags match none
of the five rules is omitted from the result entirely. -/
theorem getWorkingChanges_status_precedence (repo : Repo)
    (hnd : (repo.statuses.map (fun e => e.path)).Nodup) :
    (∀ f ∈ get_working_changes repo, ∃ e ∈ repo.statuses,
        f.path = e.path ∧ specWorkingStatus e.flags = some f.status) ∧
    (∀ e ∈ repo.statuses, specWorkingStatus e.flags = none →
        ∀ f ∈ get_working_changes repo, f.path ≠ e.path) := by
  have hprod : ∀ f ∈ get_working_changes repo, ∃ e ∈ repo.statuses,
      f.path = e.path ∧ workingStatusOf e.flags = some f.status := by
    intro f hf
    unfold get_working_changes at hf
    rw [List.mem_filterMap] at hf
    obtain ⟨e, he, hfe⟩ := hf
    by_cases hie : e.flags.isEmpty
    · simp [hie] at hfe
    · simp only [hie, if_neg, Bool.false_eq_true, ite_false, Option.map_eq_some'] at hfe
      obtain ⟨st, hst, hmk⟩ := hfe
      exact ⟨e, he, by rw [← hmk], by rw [← hmk, hst]⟩
  constructor
  · intro f hf
    obtain ⟨e, he, hp, hs⟩ := hprod f hf
    exact ⟨e, he, hp, by rw [← workingStatusOf_eq_spec, hs]⟩
  · intro e he hnone f hf hpe
    obtain ⟨e2, he2, hp2, hs2⟩ := hprod f hf
    have : e2 = e := List.inj_on_of_nodup_map hnd he2 he (by rw [← hp2, hpe])
    rw [this, workingStatusOf_eq_spec, hnone] at hs2
    cases hs2

/-- Status fixture exercising every precedence rule plus a skipped entry. -/
def workingRepo : Repo :=
  { baseRepo with statuses := [
      { path := "u.txt", flags := { wt_new := true } },
      { path := "a.txt", flags := { index_new := true, wt_modified := true } },
      { path := "d.txt", flags := { wt_deleted := true } },
      { path := "m.txt", flags := { index_modified := true } },
      { path := "r.txt", flags := { index_renamed := true } },
      { path := "i.txt", flags := { ignored := true } } ] }

/-- C3 witness: the precedence theorem applies to `workingRepo`. -/
theorem getWorkingChanges_status_precedence_witness :
    (workingRepo.statuses.map (fun e => e.path)).Nodup ∧
    ((∀ f ∈ get_working_changes workingRepo, ∃ e ∈ workingRepo.statuses,
        f.path = e.path ∧ specWorkingStatus e.flags = some f.status) ∧
     (∀ e ∈ workingRepo.statuses, specWorkingStatus e.flags = none →
        ∀ f ∈ get_working_changes workingRepo, f.path ≠ e.path)) :=
  ⟨by decide, getWorkingChanges_status_precedence workingRepo (by decide)⟩

/-! ## C4 -/

/-- The libgit2 contract for ordinary hunk lines (`git_diff_line`): addition
lines carry only a new line number, deletion lines only an old one, context
lines both. -/
def RawLineWf (r : RawLine) : Prop :=
  (r.origin = '+' → r.old_lineno = none ∧ r.new_lineno.isSome = true) ∧
  (r.origin = '-' → r.new_lineno = none ∧ r.old_lineno.isSome = true) ∧
  (r.origin ≠ '+' → r.origin ≠ '-' → r.old_lineno.isSome = true ∧ r.new_lineno.isSome = true)

instance (r : RawLine) : Decidable (RawLineWf r) := by
  unfold RawLineWf
  infer_instance

/-- C4: for a non-binary file diff whose backend patch satisfies the line
contract, `get_file_diff` classifies every line by its marker: `+` yields
Addition with `old_line_no` absent and `new_line_no` present, `-` yields
Deletion with `new_line_no` absent and `old_line_no` present, any other marker
yields Context with both line numbers present; the produced hunks are exactly
the backend hunks converted by `mkHunk`. -/
theorem getFileDiff_line_classification (repo : Repo) (cid path : String)
    (c : CommitObj) (d : Delta) (rhs : List RawHunk)
    (hc : repo.findCommit cid = some c)
    (hd : ((diffTreeToTree c.parentTrees.head? c.tree).filter (deltaMatches path)).head? = some d)
    (hnb : (d.newIsBin || d.oldIsBin) = false)
    (hp : repo.patchHunks cid path = some rhs)
    (hwf : ∀ h ∈ rhs, ∀ r ∈ h.lines, RawLineWf r) :
    ∃ fd, get_file_diff repo cid path = .ok fd ∧ fd.is_binary = false ∧
      fd.hunks = rhs.map mkHunk ∧
      ∀ h ∈ rhs, ∀ r ∈ h.lines,
        (r.origin = '+' → (mkDiffLine r).line_type = .Addition ∧
          (mkDiffLine r).old_line_no = none ∧ (mkDiffLine r).new_line_no.isSome = true) ∧
        (r.origin = '-' → (mkDiffLine r).line_type = .Deletion ∧
          (mkDiffLine r).new_line_no = none ∧ (mkDiffLine r).old_line_no.isSome = true) ∧
        (r.origin ≠ '+' → r.origin ≠ '-' → (mkDiffLine r).line_type = .Context ∧
          (mkDiffLine r).old_line_no.isSome = true ∧ (mkDiffLine r).new_line_no.isSome = true) := by
  refine ⟨{ old_path := if d.status = .Renamed || d.status = .Copied then d.oldPath else none,
            new_path := ((d.newPath).orElse fun _ => d.oldPath).getD "",
            hunks := rhs.map mkHunk, is_binary := false }, ?_, rfl, rfl, ?_⟩
  · simp [get_file_diff, hc, hd, hnb, hp]
  · intro h hh r hr
    obtain ⟨wp, wm, wc⟩ := hwf h hh r hr
    refine ⟨?_, ?_, ?_⟩
    · intro ho
      exact ⟨by simp [mkDiffLine, ho], (wp ho).1, (wp ho).2⟩
    · intro ho
      have hne : r.origin ≠ '+' := by rw [ho]; decide
      exact ⟨by simp [mkDiffLine, ho, hne], (wm ho).1, (wm ho).2⟩
    · intro h1 h2
      exact ⟨by simp [mkDiffLine, h1, h2], (wc h1 h2).1, (wc h1 h2).2⟩

/-- Old tree of the line-classification fixture. -/
def lineOldTree : Tree := [("file.txt", .blob [104, 105] false)]

/-- New tree of the line-classification fixture. -/
def lineNewTree : Tree := [("file.txt", .blob [104, 111] false)]

/-- Backend hunk of the fixture: one context, one deletion, one addition. -/
def lineHunk : RawHunk :=
  { old_start := 1, old_lines := 1, new_start := 1, new_lines := 1,
    lines := [
      { origin := ' ', content := [104], old_lineno := some 1, new_lineno := some 1 },
      { origin := '-', content := [105], old_lineno := some 2, new_lineno := none },
      { origin := '+', content := [111], old_lineno := none, new_lineno := some 2 } ] }

/-- Repository with one modified text file and its backend patch. -/
def lineRepo : Repo :=
  { baseRepo with
    commits := [("cc", ⟨lineNewTree, [lineOldTree]⟩)],
    patchHunks := fun cid p =>
      if cid == "cc" && p == "file.txt" then some [lineHunk] else none }

/-- The delta produced by the fixture's tree diff. -/
def lineDelta : Delta :=
  { status := .Modified, oldPath := some "file.txt", newPath := some "file.txt",
    oldIsBin := false, newIsBin := false }

/-- C4 witness: the classification theorem applies to `lineRepo`. -/
theorem getFileDiff_line_classification_witness :
    (lineRepo.findCommit "cc" = some ⟨lineNewTree, [lineOldTree]⟩ ∧
     ((diffTreeToTree (⟨lineNewTree, [lineOldTree]⟩ : CommitObj).parentTrees.head?
        lineNewTree).filter (deltaMatches "file.txt")).head? = some lineDelta ∧
     (lineDelta.newIsBin || lineDelta.oldIsBin) = false ∧
     lineRepo.patchHunks "cc" "file.txt" = some [lineHunk] ∧
     (∀ h ∈ [lineHunk], ∀ r ∈ h.lines, RawLineWf r)) ∧
    (∃ fd, get_file_diff lineRepo "cc" "file.txt" = .ok fd ∧ fd.is_binary = false ∧
      fd.hunks = [lineHunk].map mkHunk ∧
      ∀ h ∈ [lineHunk], ∀ r ∈ h.lines,
        (r.origin = '+' → (mkDiffLine r).line_type = .Addition ∧
          (mkDiffLine r).old_line_no = none ∧ (mkDiffLine r).new_line_no.isSome = true) ∧
        (r.origin = '-' → (mkDiffLine r).line_type = .Deletion ∧
          (mkDiffLine r).new_line_no = none ∧ (mkDiffLine r).old_line_no.isSome = true) ∧
        (r.origin ≠ '+' → r.origin ≠ '-' → (mkDiffLine r).line_type = .Context ∧
          (mkDiffLine r).old_line_no.isSome = true ∧ (mkDiffLine r).new_line_no.isSome = true)) :=
  ⟨⟨by decide, by decide, rfl, by decide, by decide⟩,
   getFileDiff_line_classification lineRepo "cc" "file.txt" ⟨lineNewTree, [lineOldTree]⟩
     lineDelta [lineHunk] (by decide) (by decide) rfl (by decide) (by decide)⟩

/-! ## C5 -/

/-- Once the commit is found, `get_file_contents` is `fileContentsCore` on the
commit's tree and first-parent tree. -/
theorem get_file_contents_eq_core (repo : Repo) (cid path : String) (c : CommitObj)
    (hc : repo.findCommit cid = some c) :
    get_file_contents repo cid path = fileContentsCore c.tree c.parentTrees.head? path := by
  unfold get_file_contents
  rw [hc]

/-- A binary-flagged blob resolves to the Binary-file sentinel. -/
theorem getContent_binary (t : Tree) (p : String) (bs : List Nat)
    (h : lookupAssoc t p = some (.blob bs true)) :
    getContent t p = some (.error "Binary file") := by
  simp [getContent, h]

/-- A Binary-file sentinel on either side short-circuits `fileContentsCore`. -/
theorem fileContentsCore_binary (tree : Tree) (parentTree : Option Tree) (path : String)
    (h : getContent tree path = some (.error "Binary file") ∨
         (parentTree.bind fun pt => getContent pt path) = some (.error "Binary file")) :
    fileContentsCore tree parentTree path =
      .ok { old_content := none, new_content := none, is_binary := true } := by
  unfold fileContentsCore
  rcases h with h | h
  · rw [h]
    simp
  · rw [h]
    simp

/-- Any successful `get_file_diff` result is either binary with no hunks or
non-binary. -/
theorem get_file_diff_ok_shape (repo : Repo) (cid path : String) (fd : FileDiff)
    (h : get_file_diff repo cid path = .ok fd) :
    (fd.is_binary = true ∧ fd.hunks = []) ∨ fd.is_binary = false := by
  unfold get_file_diff at h
  rcases hfc : repo.findCommit cid with _ | c <;> rw [hfc] at h
  · exact Except.noConfusion h
  dsimp only at h
  rcases hd : ((diffTreeToTree c.parentTrees.head? c.tree).filter (deltaMatches path)).head?
    with _ | d <;> rw [hd] at h
  · exact Except.noConfusion h
  dsimp only at h
  by_cases hb : (d.newIsBin || d.oldIsBin) = true
  · rw [if_pos hb] at h
    have h2 := Except.ok.inj h
    rw [← h2]
    exact Or.inl ⟨rfl, rfl⟩
  · rw [if_neg hb] at h
    rcases hp : repo.patchHunks cid path with _ | rhs <;> rw [hp] at h
    · exact Except.noConfusion h
    · have h2 := Except.ok.inj h
      rw [← h2]
      exact Or.inr rfl

/-- Any successful `fileContentsCore` result with the binary flag set has both
content fields absent. -/
theorem fileContentsCore_ok_shape (tree : Tree) (parentTree : Option Tree) (path : String)
    (fc : FileContents) (h : fileContentsCore tree parentTree path = .ok fc) :
    fc.is_binary = true → fc.old_content = none ∧ fc.new_content = none := by
  unfold fileContentsCore at h
  dsimp only at h
  by_cases hbin : ((match getContent tree path with
      | some (Except.error e) => decide (e = "Binary file")
      | _ => false) ||
      (match parentTree.bind fun pt => getContent pt path with
      | some (Except.error e) => decide (e = "Binary file")
      | _ => false)) = true
  · rw [if_pos hbin] at h
    have h2 := Except.ok.inj h
    rw [← h2]
    exact fun _ => ⟨rfl, rfl⟩
  · rw [if_neg hbin] at h
    by_cases hnn : ((getContent tree path).isNone &&
        (parentTree.bind fun pt => getContent pt path).isNone) = true
    · rw [if_pos hnn] at h
      exact Except.noConfusion h
    · rw [if_neg hnn] at h
      rcases ho : extractContent (parentTree.bind fun pt => getContent pt path)
        with e | oc <;> rw [ho] at h
      · exact Except.noConfusion h
      rcases hn : extractContent (getContent tree path) with e | nc <;> rw [hn] at h
      · exact Except.noConfusion h
      · have h2 := Except.ok.inj h
        rw [← h2]
        intro hbin2
        exact absurd hbin2 (by simp)

/-- C5: whenever either side of the requested file is binary, `get_file_diff`
returns `is_binary = true` with an empty hunk list, and `get_file_contents`
returns `is_binary = true` with both content fields absent (even when the
other side is ordinary text); moreover no successful result of either call
pairs `is_binary = true` with hunks or with text content. -/
theorem binary_comparisons_shortcircuit :
    (∀ (repo : Repo) (cid path : String) (c : CommitObj) (d : Delta),
       repo.findCommit cid = some c →
       ((diffTreeToTree c.parentTrees.head? c.tree).filter (deltaMatches path)).head? = some d →
       (d.newIsBin || d.oldIsBin) = true →
       get_file_diff repo cid path = .ok
         { old_path := if d.status = .Renamed || d.status = .Copied then d.oldPath else none,
           new_path := ((d.newPath).orElse fun _ => d.oldPath).getD "",
           hunks := [], is_binary := true }) ∧
    (∀ (repo : Repo) (cid path : String) (c : CommitObj),
       repo.findCommit cid = some c →
       ((∃ bs, lookupAssoc c.tree path = some (TreeEntry.blob bs true)) ∨
        (∃ pt bs, c.parentTrees.head? = some pt ∧
          lookupAssoc pt path = some (TreeEntry.blob bs true))) →
       get_file_contents repo cid path =
         .ok { old_content := none, new_content := none, is_binary := true }) ∧
    (∀ (repo : Repo) (cid path : String) (fd : FileDiff),
       get_file_diff repo cid path = .ok fd → fd.is_binary = true → fd.hunks = []) ∧
    (∀ (repo : Repo) (cid path : String) (fc : FileContents),
       get_file_contents repo cid path = .ok fc → fc.is_binary = true →
       fc.old_content = none ∧ fc.new_content = none) := by
  refine ⟨?_, ?_, ?_, ?_⟩
  · intro repo cid path c d hc hd hbin
    simp [get_file_diff, hc, hd, hbin]
  · intro repo cid path c hc hside
    unfold get_file_contents
    rw [hc]
    apply fileContentsCore_binary
    rcases hside with ⟨bs, hb⟩ | ⟨pt, bs, hpt, hb⟩
    · exact Or.inl (getContent_binary _ _ _ hb)
    · refine Or.inr ?_
      rw [hpt, Option.some_bind]
      exact getContent_binary _ _ _ hb
  · intro repo cid path fd h hbin
    rcases get_file_diff_ok_shape repo cid path fd h with ⟨_, he⟩ | hf
    · exact he
    · rw [hf] at hbin
      exact absurd hbin (by simp)
  · intro repo cid path fc h hbin
    unfold get_file_contents at h
    rcases hfc : repo.findCommit cid with _ | c
    · rw [hfc] at h
      exact Except.noConfusion h
    · rw [hfc] at h
      exact fileContentsCore_ok_shape _ _ _ _ h hbin

/-- Old tree of the binary fixture. -/
def binOldTree : Tree := [("img.png", .blob [0, 1] true)]

/-- New tree of the binary fixture. -/
def binNewTree : Tree := [("img.png", .blob [0, 2] true)]

/-- Repository with one modified binary file. -/
def binRepo : Repo := { baseRepo with commits := [("dd", ⟨binNewTree, [binOldTree]⟩)] }

/-- The delta produced by the binary fixture's tree diff. -/
def binDelta : Delta :=
  { status := .Modified, oldPath := some "img.png", newPath := some "img.png",
    oldIsBin := true, newIsBin := true }

/-- C5 witness: on `binRepo` both calls short-circuit to binary results. -/
theorem binary_comparisons_shortcircuit_witness :
    (binRepo.findCommit "dd" = some ⟨binNewTree, [binOldTree]⟩ ∧
     ((diffTreeToTree (⟨binNewTree, [binOldTree]⟩ : CommitObj).parentTrees.head?
        binNewTree).filter (deltaMatches "img.png")).head? = some binDelta ∧
     (binDelta.newIsBin || binDelta.oldIsBin) = true ∧
     lookupAssoc binNewTree "img.png" = some (TreeEntry.blob [0, 2] true)) ∧
    (get_file_diff binRepo "dd" "img.png" =
       .ok { old_path := none, new_path := "img.png", hunks := [], is_binary := true } ∧
     get_file_contents binRepo "dd" "img.png" =
       .ok { old_content := none, new_content := none, is_binary := true }) :=
  ⟨⟨by decide, by decide, rfl, by decide⟩,
   ⟨binary_comparisons_shortcircuit.1 binRepo "dd" "img.png" ⟨binNewTree, [binOldTree]⟩
      binDelta (by decide) (by decide) rfl,
    binary_comparisons_shortcircuit.2.1 binRepo "dd" "img.png" ⟨binNewTree, [binOldTree]⟩
      (by decide) (Or.inl ⟨[0, 2], by decide⟩)⟩⟩

/-! ## C6 -/

/-- Tree holding a non-binary blob that is not valid UTF-8. -/
def badUtfTree : Tree := [("weird.txt", .blob [255] false)]

/-- Backend hunk for the invalid-UTF-8 fixture: one added line. -/
def badUtfHunk : RawHunk :=
  { old_start := 0, old_lines := 0, new_start := 1, new_lines := 1,
    lines := [{ origin := '+', content := [255], old_lineno := none, new_lineno := some 1 }] }

/-- Root-commit repository containing only the invalid-UTF-8 file, with its
backend patch. -/
def badUtfRepo : Repo :=
  { baseRepo with
    commits := [("ee", ⟨badUtfTree, []⟩)],
    patchHunks := fun cid p =>
      if cid == "ee" && p == "weird.txt" then some [badUtfHunk] else none }

/-- The delta produced by the invalid-UTF-8 fixture's tree diff. -/
def badUtfDelta : Delta :=
  { status := .Added, oldPath := none, newPath := some "weird.txt",
    oldIsBin := false, newIsBin := false }

/-- C6 counterexample: `weird.txt` is present at exactly one comparison point
(the root commit's tree; the parent side does not exist), yet
`get_file_contents` fails — with the UTF-8 error, because the one present side
is a non-binary blob whose bytes are not valid UTF-8 — rather than succeeding
as the claim states. -/
theorem getFileContents_one_sided_nonUtf8_fails :
    lookupAssoc badUtfTree "weird.txt" = some (TreeEntry.blob [255] false) ∧
    (⟨badUtfTree, []⟩ : CommitObj).parentTrees.head? = none ∧
    get_file_contents badUtfRepo "ee" "weird.txt" = .error "File is not valid UTF-8" := by
  refine ⟨by decide, rfl, by decide⟩

/-- C6 (amended): for every path absent at both comparison points,
`get_file_contents` (and `get_working_file_contents`) fails with a
file-not-found error rather than returning an all-absent `FileContents`; for
every path that resolves at exactly one point to a readable text blob
(non-binary and UTF-8 decodable), the call succeeds with the field for the
missing side absent. -/
theorem getFileContents_absence_handling :
    (∀ (repo : Repo) (cid path : String) (c : CommitObj),
       repo.findCommit cid = some c →
       getContent c.tree path = none →
       (c.parentTrees.head?.bind fun pt => getContent pt path) = none →
       get_file_contents repo cid path = .error ("File not found in commit: " ++ path)) ∧
    (∀ (repo : Repo) (path : String),
       (repo.headTree.bind fun t => lookupAssoc t path) = none →
       lookupAssoc repo.workdirFiles path = none →
       get_working_file_contents repo path = .error ("File not found: " ++ path)) ∧
    (∀ (repo : Repo) (cid path : String) (c : CommitObj) (s : List Nat),
       repo.findCommit cid = some c →
       getContent c.tree path = some (.ok s) →
       (c.parentTrees.head?.bind fun pt => getContent pt path) = none →
       get_file_contents repo cid path =
         .ok { old_content := none, new_content := some s, is_binary := false }) ∧
    (∀ (repo : Repo) (cid path : String) (c : CommitObj) (s : List Nat),
       repo.findCommit cid = some c →
       getContent c.tree path = none →
       (c.parentTrees.head?.bind fun pt => getContent pt path) = some (.ok s) →
       get_file_contents repo cid path =
         .ok { old_content := some s, new_content := none, is_binary := false }) := by
  refine ⟨?_, ?_, ?_, ?_⟩
  · intro repo cid path c hc hn ho
    rw [get_file_contents_eq_core repo cid path c hc]
    simp [fileContentsCore, hn, ho, extractContent]
  · intro repo path hh hw
    unfold get_working_file_contents
    rcases hht : repo.headTree with _ | t
    · simp [workingNewSide, hw]
    · rw [hht, Option.some_bind] at hh
      simp [hh, workingNewSide, hw]
  · intro repo cid path c s hc hn ho
    rw [get_file_contents_eq_core repo cid path c hc]
    simp [fileContentsCore, hn, ho, extractContent]
  · intro repo cid path c s hc hn ho
    rw [get_file_contents_eq_core repo cid path c hc]
    simp [fileContentsCore, hn, ho, extractContent]

/-- C6 witness: in `rangeRepo`, commit `bb` adds `file.txt`; the path resolves
only on the new side and the call succeeds with `old_content` absent. -/
theorem getFileContents_absence_handling_witness :
    (rangeRepo.findCommit "bb" = some ⟨rangeNewTree, [readmeTree]⟩ ∧
     getContent rangeNewTree "file.txt" =
       some (.ok [99, 111, 110, 116, 101, 110, 116]) ∧
     ((⟨rangeNewTree, [readmeTree]⟩ : CommitObj).parentTrees.head?.bind
        fun pt => getContent pt "file.txt") = none) ∧
    get_file_contents rangeRepo "bb" "file.txt" =
      .ok { old_content := none, new_content := some [99, 111, 110, 116, 101, 110, 116],
            is_binary := false } :=
  ⟨⟨by decide, by decide, by decide⟩,
   getFileContents_absence_handling.2.2.1 rangeRepo "bb" "file.txt"
     ⟨rangeNewTree, [readmeTree]⟩ [99, 111, 110, 116, 101, 110, 116]
     (by decide) (by decide) (by decide)⟩

/-! ## C10 -/

/-- C10: `get_file_diff` never fails because diff line content is not valid
UTF-8 — once the delta is found, the file is not binary and the backend patch
exists, the call succeeds for arbitrary line bytes (contents are decoded
lossily) — whereas `get_file_contents` on a non-binary blob with invalid
UTF-8 bytes returns a hard error; on the concrete `badUtfRepo` the diff
succeeds while the contents call fails. -/
theorem fileDiff_lossy_fileContents_strict :
    (∀ (repo : Repo) (cid path : String) (c : CommitObj) (d : Delta) (rhs : List RawHunk),
       repo.findCommit cid = some c →
       ((diffTreeToTree c.parentTrees.head? c.tree).filter (deltaMatches path)).head? = some d →
       (d.newIsBin || d.oldIsBin) = false →
       repo.patchHunks cid path = some rhs →
       ∃ fd, get_file_diff repo cid path = .ok fd) ∧
    (∀ (repo : Repo) (cid path : String) (c : CommitObj) (bs : List Nat),
       repo.findCommit cid = some c →
       lookupAssoc c.tree path = some (TreeEntry.blob bs false) →
       utf8Valid bs = false →
       (c.parentTrees.head?.bind fun pt => getContent pt path) = none →
       get_file_contents repo cid path = .error "File is not valid UTF-8") ∧
    ((∃ fd, get_file_diff badUtfRepo "ee" "weird.txt" = .ok fd) ∧
     get_file_contents badUtfRepo "ee" "weird.txt" = .error "File is not valid UTF-8") := by
  refine ⟨?_, ?_, ?_, ?_⟩
  · intro repo cid path c d rhs hc hd hnb hp
    exact ⟨{ old_path := if d.status = .Renamed || d.status = .Copied then d.oldPath else none,
             new_path := ((d.newPath).orElse fun _ => d.oldPath).getD "",
             hunks := rhs.map mkHunk, is_binary := false },
           by simp [get_file_diff, hc, hd, hnb, hp]⟩
  · intro repo cid path c bs hc hb hv ho
    rw [get_file_contents_eq_core repo cid path c hc]
    have hn : getContent c.tree path = some (.error "File is not valid UTF-8") := by
      simp [getContent, hb, fromUtf8, hv]
    simp [fileContentsCore, hn, ho, extractContent]
  · exact ⟨{ old_path := none, new_path := "weird.txt",
             hunks := [mkHunk badUtfHunk], is_binary := false }, by decide⟩
  · decide

/-- C10 witness: the lossy-diff part applies to `badUtfRepo`: the line bytes
`[255]` are not UTF-8 yet the diff succeeds. -/
theorem fileDiff_lossy_fileContents_strict_witness :
    (badUtfRepo.findCommit "ee" = some ⟨badUtfTree, []⟩ ∧
     ((diffTreeToTree (⟨badUtfTree, []⟩ : CommitObj).parentTrees.head? badUtfTree).filter
        (deltaMatches "weird.txt")).head? = some badUtfDelta ∧
     (badUtfDelta.newIsBin || badUtfDelta.oldIsBin) = false ∧
     badUtfRepo.patchHunks "ee" "weird.txt" = some [badUtfHunk] ∧
     utf8Valid [255] = false) ∧
    (∃ fd, get_file_diff badUtfRepo "ee" "weird.txt" = .ok fd) :=
  ⟨⟨by decide, by decide, rfl, by decide, by decide⟩,
   fileDiff_lossy_fileContents_strict.1 badUtfRepo "ee" "weird.txt" ⟨badUtfTree, []⟩
     badUtfDelta [badUtfHunk] (by decide) (by decide) rfl (by decide)⟩

/-! ## C8 -/

/-- The branch comparator is the lexicographic comparison of the key
(not-current, is-remote, name). -/
abbrev branchKeyCmp : Branch → Branch → Ordering :=
  compareLex (compareOn fun x : Branch => !x.is_current)
    (compareLex (compareOn fun x : Branch => x.is_remote)
      (compareOn fun x : Branch => x.name))

theorem branchCmp_eq_lex (a b : Branch) : branchCmp a b = branchKeyCmp a b := by
  unfold branchCmp branchKeyCmp compareLex compareOn
  dsimp only
  cases hc : a.is_current <;> cases hcb : b.is_current <;>
    cases hr : a.is_remote <;> cases hrb : b.is_remote <;> rfl

theorem branchLE_trans (a b c : Branch) (h1 : branchLE a b = true)
    (h2 : branchLE b c = true) : branchLE a c = true := by
  unfold branchLE at h1 h2 ⊢
  rw [decide_eq_true_iff] at h1 h2 ⊢
  rw [branchCmp_eq_lex] at h1 h2 ⊢
  exact Batteries.TransCmp.le_trans h1 h2

theorem branchLE_total (a b : Branch) : (branchLE a b || branchLE b a) = true := by
  unfold branchLE
  rw [Bool.or_eq_true, decide_eq_true_iff, decide_eq_true_iff,
    branchCmp_eq_lex, branchCmp_eq_lex]
  by_cases h : branchKeyCmp a b = .gt
  · right
    have hlt := (Batteries.OrientedCmp.cmp_eq_gt).mp h
    rw [hlt]
    decide
  · exact Or.inl h

/-- A current branch never sorts after a non-current one. -/
theorem branchLE_current_first (a b : Branch) (ha : a.is_current = false)
    (hb : b.is_current = true) : branchLE a b = false := by
  unfold branchLE branchCmp
  simp [ha, hb]
  decide

/-- A remote branch that is not current never sorts before a local branch. -/
theorem branchLE_not_remote_before_local (a b : Branch) (ha : a.is_current = false)
    (hra : a.is_remote = true) (hrb : b.is_remote = false) : branchLE a b = false := by
  unfold branchLE branchCmp
  cases hcb : b.is_current
  · simp [ha, hcb, hra, hrb]
    decide
  · simp [ha, hcb]
    decide

/-- Within a group (same current and remote flags) the sort predicate is name
order. -/
theorem branchLE_name_le (a b : Branch) (h : branchLE a b = true)
    (hc : a.is_current = b.is_current) (hr : a.is_remote = b.is_remote) :
    compare a.name b.name ≠ Ordering.gt := by
  unfold branchLE branchCmp at h
  rw [decide_eq_true_iff] at h
  simpa [hc, hr] using h

/-- Branches built by `mkBranches` carry the requested remote flag, and remote
branches are never current. -/
theorem mkBranches_flags (current : Option String) (remote : Bool) :
    ∀ (l : List BranchInfo) (bs : List Branch), mkBranches current remote l = .ok bs →
      ∀ b ∈ bs, b.is_remote = remote ∧ (remote = true → b.is_current = false)
  | [], bs, h => by
    cases h
    intro b hb
    cases hb
  | bi :: rest, bs, h => by
    unfold mkBranches at h
    rcases hn : bi.name with _ | n <;> rw [hn] at h
    · exact Except.noConfusion h
    rcases hrec : mkBranches current remote rest with e | bs2 <;> rw [hrec] at h
    · exact Except.noConfusion h
    have h2 := Except.ok.inj h
    rw [← h2]
    intro b hb
    rcases List.mem_cons.mp hb with rfl | hb2
    · refine ⟨rfl, ?_⟩
      intro hrm
      rw [hrm]
      rfl
    · exact mkBranches_flags current remote rest bs2 hrec b hb2

/-- C8: the sequence returned by `list_branches` is totally ordered: remote
branches are never marked current; the current branch (when one exists in the
output) is first; no remote branch precedes a local branch; and within a group
(same current and remote flags, i.e. among non-current locals and among
remotes) names ascend lexicographically. -/
theorem listBranches_ordered (repo : Repo) (bs : List Branch)
    (h : list_branches repo = .ok bs) :
    (∀ b ∈ bs, b.is_remote = true → b.is_current = false) ∧
    ((∃ b ∈ bs, b.is_current = true) → ∃ b0 rest, bs = b0 :: rest ∧ b0.is_current = true) ∧
    List.Pairwise (fun a b => ¬(a.is_remote = true ∧ b.is_remote = false)) bs ∧
    List.Pairwise (fun a b => a.is_current = b.is_current → a.is_remote = b.is_remote →
      compare a.name b.name ≠ Ordering.gt) bs := by
  unfold list_branches at h
  dsimp only at h
  rcases hl : mkBranches (get_current_branch repo).toOption false repo.localBranches
    with e | locals <;> rw [hl] at h
  · exact Except.noConfusion h
  dsimp only at h
  rcases hr : mkBranches (get_current_branch repo).toOption true repo.remoteBranches
    with e | remotes <;> rw [hr] at h
  · exact Except.noConfusion h
  have hbs : (locals ++ remotes).mergeSort branchLE = bs := Except.ok.inj h
  have hsorted : List.Pairwise (fun a b => branchLE a b = true) bs := by
    rw [← hbs]
    exact List.sorted_mergeSort branchLE_trans branchLE_total (locals ++ remotes)
  have hperm : bs.Perm (locals ++ remotes) := by
    rw [← hbs]
    exact List.mergeSort_perm (locals ++ remotes) branchLE
  have hflag : ∀ b ∈ bs, b.is_remote = true → b.is_current = false := by
    intro b hb hrm
    rcases List.mem_append.mp (hperm.subset hb) with hm | hm
    · have := (mkBranches_flags _ _ _ _ hl b hm).1
      rw [this] at hrm
      cases hrm
    · exact (mkBranches_flags _ _ _ _ hr b hm).2 rfl
  refine ⟨hflag, ?_, ?_, ?_⟩
  · rintro ⟨b, hb, hcur⟩
    cases bs with
    | nil => cases hb
    | cons b0 rest =>
      by_cases hb0 : b0.is_current = true
      · exact ⟨b0, rest, rfl, hb0⟩
      · have hb0f : b0.is_current = false := by
          cases hcc : b0.is_current
          · rfl
          · exact absurd hcc hb0
        rcases List.mem_cons.mp hb with rfl | hbr
        · exact absurd hcur hb0
        · have hle := (List.pairwise_cons.mp hsorted).1 b hbr
          rw [branchLE_current_first b0 b hb0f hcur] at hle
          cases hle
  · rw [List.pairwise_iff_get]
    intro i j hij
    rintro ⟨hri, hrj⟩
    have hle := (List.pairwise_iff_get.mp hsorted) i j hij
    have hci : (bs.get i).is_current = false :=
      hflag (bs.get i) (bs.get_mem i.1 i.2) hri
    rw [branchLE_not_remote_before_local (bs.get i) (bs.get j) hci hri hrj] at hle
    cases hle
  · exact hsorted.imp fun hab hc2 hr2 => branchLE_name_le _ _ hab hc2 hr2

/-- The current branch record of the branch fixture. -/
def mainB : Branch := { name := "main", is_current := true, is_remote := false, commit_id := "c2" }

/-- A non-current local branch of the fixture. -/
def devB : Branch := { name := "dev", is_current := false, is_remote := false, commit_id := "c1" }

/-- The remote branch of the fixture. -/
def originB : Branch :=
  { name := "origin/main", is_current := false, is_remote := true, commit_id := "c2" }

/-- Repository with two local branches (`main` current) and one remote. -/
def branchesRepo : Repo :=
  { baseRepo with
    head := .ok { isBranch := true, shorthand := some "main", target := none },
    localBranches := [
      { name := some "main", refname := some "refs/heads/main", commitId := some "c2" },
      { name := some "dev", refname := some "refs/heads/dev", commitId := some "c1" } ],
    remoteBranches := [
      { name := some "origin/main", refname := some "refs/remotes/origin/main",
        commitId := some "c2" } ] }

/-- C8 witness: on `branchesRepo` the listing is `[main, dev, origin/main]`
and the ordering theorem applies to it. -/
theorem listBranches_ordered_witness :
    list_branches branchesRepo = .ok [mainB, devB, originB] ∧
    ((∀ b ∈ [mainB, devB, originB], b.is_remote = true → b.is_current = false) ∧
     ((∃ b ∈ [mainB, devB, originB], b.is_current = true) →
        ∃ b0 rest, [mainB, devB, originB] = b0 :: rest ∧ b0.is_current = true) ∧
     List.Pairwise (fun a b => ¬(a.is_remote = true ∧ b.is_remote = false))
       [mainB, devB, originB] ∧
     List.Pairwise (fun a b => a.is_current = b.is_current → a.is_remote = b.is_remote →
        compare a.name b.name ≠ Ordering.gt) [mainB, devB, originB]) := by
  have hs : (([mainB, devB] ++ [originB]) : List Branch).mergeSort branchLE =
      [mainB, devB, originB] :=
    List.mergeSort_of_sorted (by decide)
  have h : list_branches branchesRepo = .ok [mainB, devB, originB] := by
    have h0 : list_branches branchesRepo =
        .ok ((([mainB, devB] ++ [originB]) : List Branch).mergeSort branchLE) := rfl
    rw [h0, hs]
  exact ⟨h, listBranches_ordered branchesRepo [mainB, devB, originB] h⟩

end Recap
